import Mathlib

/-!
Verification of the billing-period / delta-computation core of the
usage-billing dashboard (`src/server/billing-calculator.ts`).

The embedding is shallow:

* JavaScript numbers are modelled by `JSNum`: a finite rational, the two
  infinities, or `nan`.  The only arithmetic the engine performs on raw
  usage fields is subtraction followed by the finiteness/negativity clamp,
  so `JSNum.sub` implements IEEE subtraction on these four cases.
* `Number(x?.usage?.total?.cost ?? 0)` is modelled by `numField`:
  any missing layer yields `0`.
* `(+d.toFixed(6))` on a finite non-negative number is modelled by
  `round6` (round half up at the sixth decimal), using `Rat.floor`.
* A JavaScript `Map` built by repeated `set` is modelled by an ordered
  association list with last-write-wins updates that keep the original
  insertion position (`insertLWW`), exactly like `Map.set`.
* `Array.prototype.sort` with the comparator `(a, b) => b.cost - a.cost`
  is a stable descending-by-cost sort; its stable specification is
  `List.insertionSort` with the relation `fun a b => b.cost ≤ a.cost`.
* The snapshot store (`db.getSnapshots()` / `db.getSnapshotById`) is a
  list of snapshots ordered as the store returns them; payloads are kept
  in decoded form (the double-JSON-decoding shim of the calculator is a
  string-level artifact below the level of these claims).
* `apiClient.getCurrentCosts()` (the live usage source) and
  `new Date().toISOString()` are passed in as explicit parameters
  `live` and `now`.
* A thrown `NotFound` error is modelled by `none`.
-/

/-- A JavaScript number: finite rational, ±Infinity, or NaN. -/
inductive JSNum where
  | fin (q : ℚ)
  | posInf
  | negInf
  | nan
deriving DecidableEq

/-- IEEE-style subtraction on `JSNum` (`endValue - startValue` in the source). -/
def JSNum.sub : JSNum → JSNum → JSNum
  | .fin a, .fin b => .fin (a - b)
  | .fin _, .posInf => .negInf
  | .fin _, .negInf => .posInf
  | .posInf, .fin _ => .posInf
  | .negInf, .fin _ => .negInf
  | .posInf, .negInf => .posInf
  | .negInf, .posInf => .negInf
  | .posInf, .posInf => .nan
  | .negInf, .negInf => .nan
  | .nan, _ => .nan
  | _, .nan => .nan

/-- `Number.isFinite`. -/
def JSNum.isFinite : JSNum → Bool
  | .fin _ => true
  | _ => false

/-- The delta clamp of the source:
`if (!Number.isFinite(delta) || delta < 0) delta = 0` — a non-finite or
negative delta becomes `0`, otherwise the finite value is kept. -/
def clampDelta : JSNum → ℚ
  | .fin q => if q < 0 then 0 else q
  | _ => 0

/-- `+delta.toFixed(6)` on a finite value: round half up at 6 decimals. -/
def round6 (q : ℚ) : ℚ := ((q * 1000000 + 1/2).floor : ℚ) / 1000000

/-- The `usage.total` record; only the three fields the delta engine reads.
Each field is optional (`?? 0` applies when missing) and carries a
JavaScript number when present. -/
structure UsageTotal where
  cost : Option JSNum
  tokens : Option JSNum
  requests : Option JSNum
deriving DecidableEq

/-- A user usage record (`UserData` in the source); `usage` itself may be
missing (optional chaining in the source tolerates that). -/
structure UserData where
  id : String
  name : String
  usage : Option UsageTotal
deriving DecidableEq

/-- `Number(u?.usage?.total?.<field> ?? 0)`: every missing layer gives `0`. -/
def numField (u : Option UserData) (f : UsageTotal → Option JSNum) : JSNum :=
  match (u.bind (fun x => x.usage)).bind f with
  | some v => v
  | none => .fin 0

/-- One entry of the per-period ranking. -/
structure UserRanking where
  id : String
  name : String
  cost : ℚ
  share : ℚ
  isMe : Bool
  rawStart : Option UserData
  rawEnd : Option UserData
  periodTokens : ℚ
  periodRequests : ℚ
deriving DecidableEq

/-- A derived billing period. -/
structure PeriodInfo where
  index : ℕ
  startSnapshotId : Option ℕ
  startAt : Option String
  endAt : Option String
  isCurrent : Bool
deriving DecidableEq

/-- A stored snapshot with decoded payload. -/
structure Snapshot where
  id : ℕ
  created_at : String
  data : List UserData
deriving DecidableEq

instance : Inhabited Snapshot := ⟨⟨0, "", []⟩⟩

/-- `Map.set k v`: overwrite in place if the key exists (keeping its
position, as JavaScript `Map.set` does), otherwise append. -/
def insertLWW (m : List (String × UserData)) (k : String) (v : UserData) :
    List (String × UserData) :=
  if m.any (fun p => decide (p.1 = k)) then
    m.map (fun p => if p.1 = k then (k, v) else p)
  else m ++ [(k, v)]

/-- `mapFromDataArray` of the source: index records by user id,
last write wins. -/
def mapFromDataArray (data : List UserData) : List (String × UserData) :=
  data.foldl (fun m u => insertLWW m u.id u) []

/-- `m.get(k)` on the association-list model of a `Map`. -/
def mapGet (m : List (String × UserData)) (k : String) : Option UserData :=
  (m.find? (fun p => decide (p.1 = k))).map (fun p => p.2)

/-- The key list of the map model (`Array.from(m.keys())`). -/
def mapKeys (m : List (String × UserData)) : List String :=
  m.map (fun p => p.1)

/-- `new Set([...a])` keeps the first occurrence of each element,
in order. -/
def dedupFirst (l : List String) : List String :=
  l.foldl (fun acc x => if x ∈ acc then acc else acc ++ [x]) []

/-- One ranking entry, built exactly as the loop body of
`computePeriodDelta` builds it for an id present in the end map. -/
def mkEntry (start : List (String × UserData)) (meId : Option String)
    (id : String) (endU : UserData) : UserRanking :=
  let startU := mapGet start id
  let startCost := numField startU (fun t => t.cost)
  let endCost := numField (some endU) (fun t => t.cost)
  let startTokens := numField startU (fun t => t.tokens)
  let endTokens := numField (some endU) (fun t => t.tokens)
  let startRequests := numField startU (fun t => t.requests)
  let endRequests := numField (some endU) (fun t => t.requests)
  { id := if meId = some id then id else ""
    name := if endU.name = "" then "User" else endU.name
    cost := round6 (clampDelta (JSNum.sub endCost startCost))
    share := 0
    isMe := decide (meId = some id)
    rawStart := mapGet start id
    rawEnd := some endU
    periodTokens := clampDelta (JSNum.sub endTokens startTokens)
    periodRequests := clampDelta (JSNum.sub endRequests startRequests) }

/-- The unsorted, share-less user list of `computePeriodDelta`: iterate the
union of the two key sets, skip ids absent from the end map. -/
def rawUsers (startData endData : List UserData) (meId : Option String) :
    List UserRanking :=
  let start := mapFromDataArray startData
  let endM := mapFromDataArray endData
  let ids := dedupFirst (mapKeys start ++ mapKeys endM)
  ids.filterMap (fun id => (mapGet endM id).map (mkEntry start meId id))

/-- Result record of `computePeriodDelta`. -/
structure DeltaResult where
  users : List UserRanking
  totalCost : ℚ
  me : Option UserRanking
deriving DecidableEq

/-- Descending-by-cost order used by the ranking sort. -/
def costDesc : UserRanking → UserRanking → Prop := fun a b => b.cost ≤ a.cost

instance : DecidableRel costDesc :=
  fun a b => inferInstanceAs (Decidable (b.cost ≤ a.cost))

instance : IsTotal UserRanking costDesc :=
  ⟨fun a b => (le_total b.cost a.cost).imp (fun h => h) (fun h => h)⟩

instance : IsTrans UserRanking costDesc :=
  ⟨fun _ _ _ hab hbc => le_trans hbc hab⟩

/-- `computePeriodDelta(startData, endData, meId)` of the source. -/
def computePeriodDelta (startData endData : List UserData)
    (meId : Option String) : DeltaResult :=
  let users0 := rawUsers startData endData meId
  let totalCost := (users0.map (fun u => u.cost)).sum
  let users1 := users0.map (fun u =>
    { u with share := if 0 < totalCost then u.cost / totalCost else 0 })
  let users := List.insertionSort costDesc users1
  let me := match meId with
    | some mid => if mid = "" then none else users.find? (fun u => decide (u.id = mid))
    | none => none
  ⟨users, round6 totalCost, me⟩

/-- The current period pushed first by `getPeriods` when snapshots exist
(`snapshots[snapshots.length - 1]` is the last snapshot). -/
def currentP (s : List Snapshot) : PeriodInfo :=
  let lastS := s.getD (s.length - 1) default
  ⟨s.length, some lastS.id, some lastS.created_at, none, true⟩

/-- The first historical period (beginning of time to the first
snapshot). -/
def firstP (s : List Snapshot) : PeriodInfo :=
  let firstS := s.getD 0 default
  ⟨0, none, none, some firstS.created_at, false⟩

/-- Historical period `i = j + 1` of the loop in `getPeriods`:
from `snapshots[i-1]` to `snapshots[i]`. -/
def histPeriod (s : List Snapshot) (j : ℕ) : PeriodInfo :=
  let startS := s.getD j default
  let endS := s.getD (j + 1) default
  ⟨j + 1, some startS.id, some startS.created_at, some endS.created_at, false⟩

/-- `BillingCalculator.getPeriods()`, as a function of the snapshot list the
store returns.  The in-range element accesses of the source (guarded there
by always-true truthiness checks) are rendered with `getD`. -/
def getPeriods (snapshots : List Snapshot) : List PeriodInfo :=
  if snapshots.isEmpty then [⟨0, none, none, none, true⟩]
  else
    currentP snapshots :: firstP snapshots ::
      (List.range (snapshots.length - 1)).map (histPeriod snapshots)

/-- `periods.find(p => p.index === periodIndex)`. -/
def findPeriod (db : List Snapshot) (i : ℕ) : Option PeriodInfo :=
  (getPeriods db).find? (fun p => decide (p.index = i))

/-- `db.getSnapshotById(id)`: `SELECT ... WHERE id = ?`. -/
def getSnapshotById (db : List Snapshot) (i : ℕ) : Option Snapshot :=
  db.find? (fun s => decide (s.id = i))

/-- The `startData` taken from `period.startSnapshotId` via
`db.getSnapshotById(period.startSnapshotId!)`; a missing id or a missing
snapshot silently leaves the empty list. -/
def startDataOf (db : List Snapshot) (p : PeriodInfo) : List UserData :=
  match p.startSnapshotId with
  | some sid =>
    match getSnapshotById db sid with
    | some s => s.data
    | none => []
  | none => []

/-- The `endData` looked up among the stored snapshots by
`s.created_at === period.endAt`; no match silently leaves the empty
list (`findIndex` returning `-1` in the source). -/
def endDataOf (db : List Snapshot) (p : PeriodInfo) : List UserData :=
  match p.endAt with
  | some ea =>
    match db.find? (fun s => decide (s.created_at = ea)) with
    | some s => s.data
    | none => []
  | none => []

/-- Resolution of `(startData, endData)` in `getPeriodSummary`, following
the source's three branches.  In the `index === 0` branch the source tests
`if (period.endAt)`, which is JavaScript-falsy for `null` and for the
empty string. -/
def resolvePeriodData (db : List Snapshot) (live : List UserData)
    (p : PeriodInfo) : List UserData × List UserData :=
  if p.index = 0 then
    match p.endAt with
    | some ea => if ea = "" then ([], live) else ([], endDataOf db p)
    | none => ([], live)
  else if p.isCurrent then
    (startDataOf db p, live)
  else
    (startDataOf db p, endDataOf db p)

/-- `totals` of a period summary. -/
structure Totals where
  totalCost : ℚ
  userCount : ℕ
deriving DecidableEq

/-- Result record of `getPeriodSummary`. -/
structure PeriodSummary where
  period : PeriodInfo
  totals : Totals
  ranking : List UserRanking
deriving DecidableEq

/-- `period.endAt || new Date().toISOString()`: JavaScript `||` falls
through on `null` and on the empty string. -/
def materializeEndAt (endAt : Option String) (now : String) : String :=
  match endAt with
  | some s => if s = "" then now else s
  | none => now

/-- `BillingCalculator.getPeriodSummary(periodIndex, meId)`.  `live` is the
dataset `apiClient.getCurrentCosts()` would return, `now` the timestamp
`new Date().toISOString()` would produce; `none` models the thrown
`NotFound` error. -/
def getPeriodSummary (db : List Snapshot) (live : List UserData)
    (now : String) (periodIndex : ℕ) (meId : Option String) :
    Option PeriodSummary :=
  match findPeriod db periodIndex with
  | none => none
  | some period =>
    let sd := resolvePeriodData db live period
    let result := computePeriodDelta sd.1 sd.2 meId
    some
      { period := { period with endAt := some (materializeEndAt period.endAt now) }
        totals :=
          { totalCost := result.totalCost
            userCount := (result.users.filter (fun u => decide (0 < u.cost))).length }
        ranking := result.users }

/-- Result record of `getUserDetail`. -/
structure UserDetail where
  id : String
  name : String
  startCost : JSNum
  endCost : JSNum
  deltaCost : ℚ
  rawStart : Option UserData
  rawEnd : Option UserData
deriving DecidableEq

/-- `BillingCalculator.getUserDetail(periodIndex, meId)`: extract the
ranking entry whose (possibly redacted) `id` equals `meId`; `none` models
the thrown `NotFound` error. -/
def getUserDetail (db : List Snapshot) (live : List UserData) (now : String)
    (periodIndex : ℕ) (meId : String) : Option UserDetail :=
  match getPeriodSummary db live now periodIndex (some meId) with
  | none => none
  | some summary =>
    match summary.ranking.find? (fun u => decide (u.id = meId)) with
    | none => none
    | some me =>
      some
        { id := me.id
          name := me.name
          startCost := numField me.rawStart (fun t => t.cost)
          endCost := numField me.rawEnd (fun t => t.cost)
          deltaCost := me.cost
          rawStart := me.rawStart
          rawEnd := me.rawEnd }

lemma ratFloor_eq_intFloor (q : ℚ) : q.floor = ⌊q⌋ := by
  rw [Rat.floor_def', Rat.floor_def]

lemma round6_nonneg {q : ℚ} (h : 0 ≤ q) : 0 ≤ round6 q := by
  rw [round6, ratFloor_eq_intFloor]
  apply div_nonneg _ (by norm_num)
  have h2 : (0:ℤ) ≤ ⌊q * 1000000 + 1/2⌋ := by
    rw [Int.le_floor]
    push_cast
    positivity
  exact_mod_cast h2

/-- `round6` always lands on a multiple of `10⁻⁶`. -/
lemma round6_isMul (q : ℚ) : ∃ k : ℤ, round6 q = (k : ℚ) / 1000000 :=
  ⟨(q * 1000000 + 1/2).floor, rfl⟩

/-- `round6` fixes every multiple of `10⁻⁶`. -/
lemma round6_eq_self {q : ℚ} (h : ∃ k : ℤ, q = (k : ℚ) / 1000000) :
    round6 q = q := by
  obtain ⟨k, rfl⟩ := h
  rw [round6, ratFloor_eq_intFloor]
  have h1 : (k : ℚ) / 1000000 * 1000000 = (k : ℚ) := by field_simp
  rw [h1, add_comm, Int.floor_add_int]
  norm_num

lemma clampDelta_nonneg (d : JSNum) : 0 ≤ clampDelta d := by
  cases d with
  | fin q =>
    by_cases h : q < 0 <;> simp [clampDelta, h]
    exact le_of_not_lt h
  | posInf => simp [clampDelta]
  | negInf => simp [clampDelta]
  | nan => simp [clampDelta]

lemma insertLWW_mem {m : List (String × UserData)} {k : String}
    {v : UserData} {p : String × UserData} (h : p ∈ insertLWW m k v) :
    p ∈ m ∨ p = (k, v) := by
  rw [insertLWW] at h
  split at h
  · obtain ⟨q, hq, he⟩ := List.mem_map.mp h
    by_cases hk : q.1 = k
    · rw [if_pos hk] at he
      exact Or.inr he.symm
    · rw [if_neg hk] at he
      exact Or.inl (he ▸ hq)
  · rcases List.mem_append.mp h with h1 | h1
    · exact Or.inl h1
    · right
      simpa using h1

lemma insertLWW_keys {m : List (String × UserData)} {k : String}
    {v : UserData} {x : String} :
    x ∈ mapKeys (insertLWW m k v) ↔ x ∈ mapKeys m ∨ x = k := by
  rw [insertLWW]
  split
  · next hany =>
    have hkeys : mapKeys (m.map (fun p => if p.1 = k then (k, v) else p)) = mapKeys m := by
      rw [mapKeys, mapKeys, List.map_map]
      apply List.map_congr_left
      intro p _
      by_cases hk : p.1 = k <;> simp [hk]
    rw [hkeys]
    constructor
    · exact Or.inl
    · rintro (h | rfl)
      · exact h
      · obtain ⟨p, hp, hpk⟩ := List.any_eq_true.mp hany
        exact List.mem_map.mpr ⟨p, hp, by simpa using hpk⟩
  · simp [mapKeys]

lemma foldl_insert_pairs :
    ∀ (d : List UserData) (acc : List (String × UserData))
      (p : String × UserData),
      p ∈ d.foldl (fun m u => insertLWW m u.id u) acc →
      p ∈ acc ∨ (p.1 = p.2.id ∧ p.2 ∈ d) := by
  intro d
  induction d with
  | nil => intro acc p h; exact Or.inl h
  | cons u t ih =>
    intro acc p h
    rcases ih (insertLWW acc u.id u) p h with h1 | h1
    · rcases insertLWW_mem h1 with h2 | h2
      · exact Or.inl h2
      · subst h2; exact Or.inr ⟨rfl, List.mem_cons_self u t⟩
    · exact Or.inr ⟨h1.1, List.mem_cons_of_mem u h1.2⟩

lemma mapFromDataArray_pairs {d : List UserData} {p : String × UserData}
    (h : p ∈ mapFromDataArray d) : p.1 = p.2.id ∧ p.2 ∈ d := by
  rcases foldl_insert_pairs d [] p h with h1 | h1
  · simp at h1
  · exact h1

lemma foldl_insert_keys :
    ∀ (d : List UserData) (acc : List (String × UserData)) (x : String),
      x ∈ mapKeys (d.foldl (fun m u => insertLWW m u.id u) acc) ↔
        x ∈ mapKeys acc ∨ x ∈ d.map (fun u => u.id) := by
  intro d
  induction d with
  | nil => intro acc x; simp
  | cons u t ih =>
    intro acc x
    rw [List.foldl_cons, ih]
    rw [insertLWW_keys]
    simp only [List.map_cons, List.mem_cons]
    tauto

lemma mapFromDataArray_keys {d : List UserData} {x : String} :
    x ∈ mapKeys (mapFromDataArray d) ↔ x ∈ d.map (fun u => u.id) := by
  rw [mapFromDataArray, foldl_insert_keys]
  simp [mapKeys]

lemma mapGet_isSome_iff {m : List (String × UserData)} {k : String} :
    (mapGet m k).isSome ↔ k ∈ mapKeys m := by
  rw [mapGet]
  rw [show ∀ o : Option (String × UserData), (o.map (fun p => p.2)).isSome = o.isSome by
    intro o; cases o <;> rfl]
  rw [List.find?_isSome]
  constructor
  · rintro ⟨p, hp, hpk⟩
    exact List.mem_map.mpr ⟨p, hp, by simpa using hpk⟩
  · intro h
    obtain ⟨p, hp, hpk⟩ := List.mem_map.mp h
    exact ⟨p, hp, by simpa using hpk⟩

lemma mapGet_eq_none_iff {m : List (String × UserData)} {k : String} :
    mapGet m k = none ↔ k ∉ mapKeys m := by
  rw [← mapGet_isSome_iff]
  cases h : mapGet m k <;> simp [h]

lemma mapGet_mapFromDataArray_some {d : List UserData} {k : String}
    {v : UserData} (h : mapGet (mapFromDataArray d) k = some v) :
    v.id = k ∧ v ∈ d := by
  rw [mapGet] at h
  obtain ⟨p, hfind, hp2⟩ := Option.map_eq_some'.mp h
  have hmem : p ∈ mapFromDataArray d := List.mem_of_find?_eq_some hfind
  have hkey : p.1 = k := by simpa using List.find?_some hfind
  obtain ⟨hid, hmem2⟩ := mapFromDataArray_pairs hmem
  subst hp2
  exact ⟨by rw [← hid, hkey], hmem2⟩

lemma dedupFirst_mem :
    ∀ (l acc : List String) (x : String),
      x ∈ l.foldl (fun acc x => if x ∈ acc then acc else acc ++ [x]) acc ↔
        x ∈ acc ∨ x ∈ l := by
  intro l
  induction l with
  | nil => intro acc x; simp
  | cons y t ih =>
    intro acc x
    rw [List.foldl_cons, ih]
    have hstep : x ∈ (if y ∈ acc then acc else acc ++ [y]) ↔ x ∈ acc ∨ x = y := by
      split
      · next hy =>
        constructor
        · exact Or.inl
        · rintro (h | rfl)
          · exact h
          · exact hy
      · simp
    rw [hstep]
    simp only [List.mem_cons]
    tauto

lemma mem_dedupFirst {l : List String} {x : String} :
    x ∈ dedupFirst l ↔ x ∈ l := by
  rw [dedupFirst, dedupFirst_mem]
  simp

/-- The unrounded total cost (`users.reduce((s, u) => s + u.cost, 0)`). -/
def totalRaw (s e : List UserData) (m : Option String) : ℚ :=
  ((rawUsers s e m).map (fun u => u.cost)).sum

/-- The share-assignment pass of `computePeriodDelta`. -/
def withShare (t : ℚ) (u : UserRanking) : UserRanking :=
  { u with share := if 0 < t then u.cost / t else 0 }

lemma computePeriodDelta_users (s e : List UserData) (m : Option String) :
    (computePeriodDelta s e m).users =
      List.insertionSort costDesc
        ((rawUsers s e m).map (withShare (totalRaw s e m))) := rfl

lemma computePeriodDelta_totalCost (s e : List UserData) (m : Option String) :
    (computePeriodDelta s e m).totalCost = round6 (totalRaw s e m) := rfl

lemma mem_rawUsers {s e : List UserData} {m : Option String} {u : UserRanking} :
    u ∈ rawUsers s e m ↔
      ∃ id endU, mapGet (mapFromDataArray e) id = some endU ∧
        u = mkEntry (mapFromDataArray s) m id endU := by
  rw [rawUsers]
  simp only [List.mem_filterMap]
  constructor
  · rintro ⟨id, _, hmap⟩
    obtain ⟨endU, hget, hmk⟩ := Option.map_eq_some'.mp hmap
    exact ⟨id, endU, hget, hmk.symm⟩
  · rintro ⟨id, endU, hget, rfl⟩
    refine ⟨id, ?_, by rw [hget]; rfl⟩
    rw [mem_dedupFirst, List.mem_append]
    right
    rw [← mapGet_isSome_iff]
    rw [hget]
    rfl

lemma mkEntry_cost (start : List (String × UserData)) (m : Option String)
    (id : String) (endU : UserData) :
    (mkEntry start m id endU).cost =
      round6 (clampDelta (JSNum.sub (numField (some endU) (fun t => t.cost))
        (numField (mapGet start id) (fun t => t.cost)))) := rfl

lemma rawUsers_cost {s e : List UserData} {m : Option String} {u : UserRanking}
    (h : u ∈ rawUsers s e m) :
    0 ≤ u.cost ∧ ∃ k : ℤ, u.cost = (k : ℚ) / 1000000 := by
  obtain ⟨id, endU, _, rfl⟩ := mem_rawUsers.mp h
  rw [mkEntry_cost]
  exact ⟨round6_nonneg (clampDelta_nonneg _), round6_isMul _⟩

lemma list_sum_mul6 (l : List ℚ) (h : ∀ x ∈ l, ∃ k : ℤ, x = (k : ℚ) / 1000000) :
    ∃ k : ℤ, l.sum = (k : ℚ) / 1000000 := by
  induction l with
  | nil => exact ⟨0, by norm_num⟩
  | cons a t ih =>
    obtain ⟨ka, hka⟩ := h a (List.mem_cons_self a t)
    obtain ⟨kt, hkt⟩ := ih (fun x hx => h x (List.mem_cons_of_mem a hx))
    refine ⟨ka + kt, ?_⟩
    rw [List.sum_cons, hka, hkt, div_add_div_same]
    push_cast
    ring

lemma totalRaw_nonneg (s e : List UserData) (m : Option String) :
    0 ≤ totalRaw s e m := by
  apply List.sum_nonneg
  intro x hx
  obtain ⟨u, hu, rfl⟩ := List.mem_map.mp hx
  exact (rawUsers_cost hu).1

/-- The rounded total returned by `computePeriodDelta` equals the raw sum:
every summand is already a multiple of `10⁻⁶`. -/
lemma totalCost_eq_totalRaw (s e : List UserData) (m : Option String) :
    (computePeriodDelta s e m).totalCost = totalRaw s e m := by
  rw [computePeriodDelta_totalCost]
  apply round6_eq_self
  apply list_sum_mul6
  intro x hx
  obtain ⟨u, hu, rfl⟩ := List.mem_map.mp hx
  exact (rawUsers_cost hu).2

lemma withShare_cost (t : ℚ) (u : UserRanking) : (withShare t u).cost = u.cost := rfl

lemma mem_users_iff {s e : List UserData} {m : Option String} {u : UserRanking} :
    u ∈ (computePeriodDelta s e m).users ↔
      ∃ u0 ∈ rawUsers s e m, u = withShare (totalRaw s e m) u0 := by
  rw [computePeriodDelta_users, List.mem_insertionSort, List.mem_map]
  constructor
  · rintro ⟨u0, h0, rfl⟩
    exact ⟨u0, h0, rfl⟩
  · rintro ⟨u0, h0, rfl⟩
    exact ⟨u0, h0, rfl⟩

lemma users_costs_perm (s e : List UserData) (m : Option String) :
    ((computePeriodDelta s e m).users.map (fun u => u.cost)).Perm
      ((rawUsers s e m).map (fun u => u.cost)) := by
  rw [computePeriodDelta_users]
  have h1 := (List.perm_insertionSort costDesc
    ((rawUsers s e m).map (withShare (totalRaw s e m)))).map (fun u => u.cost)
  rw [List.map_map] at h1
  exact h1

/-- The source invariant `sum(ranking[i].cost) == totalCost`. -/
lemma sum_users_cost_eq_totalCost (s e : List UserData) (m : Option String) :
    ((computePeriodDelta s e m).users.map (fun u => u.cost)).sum =
      (computePeriodDelta s e m).totalCost := by
  rw [(users_costs_perm s e m).sum_eq, totalCost_eq_totalRaw]
  rfl

lemma getPeriods_nil : getPeriods [] = [⟨0, none, none, none, true⟩] := rfl

lemma getPeriods_ne_nil {s : List Snapshot} (h : s ≠ []) :
    getPeriods s =
      currentP s :: firstP s ::
        (List.range (s.length - 1)).map (histPeriod s) := by
  rw [getPeriods, if_neg (by simpa using h)]

lemma range_find?_succ_eq (m i : ℕ) :
    (List.range m).find? (fun j => decide (j + 1 = i)) =
      if 1 ≤ i ∧ i ≤ m then some (i - 1) else none := by
  induction m with
  | zero =>
    rw [List.range_zero]
    rw [if_neg (by omega)]
    rfl
  | succ n ih =>
    rw [List.range_succ, List.find?_append, ih]
    by_cases h1 : 1 ≤ i ∧ i ≤ n
    · rw [if_pos h1, if_pos (by omega)]
      rfl
    · rw [if_neg h1]
      by_cases h2 : i = n + 1
      · rw [if_pos (by omega)]
        simp [h2]
      · rw [if_neg (by omega)]
        simp only [List.find?_cons, List.find?_nil]
        rw [show (decide (n + 1 = i)) = false by simp; omega]
        rfl

lemma findPeriod_nil (i : ℕ) :
    findPeriod [] i =
      if i = 0 then some ⟨0, none, none, none, true⟩ else none := by
  rw [findPeriod, getPeriods_nil]
  by_cases h : i = 0
  · subst h
    rfl
  · rw [if_neg h]
    simp only [List.find?_cons, List.find?_nil]
    rw [show (decide ((0:ℕ) = i)) = false by simp; omega]

lemma findPeriod_ne_nil {s : List Snapshot} (h : s ≠ []) (i : ℕ) :
    findPeriod s i =
      if i = s.length then some (currentP s)
      else if i = 0 then some (firstP s)
      else if i < s.length then some (histPeriod s (i - 1))
      else none := by
  have hlen : 1 ≤ s.length := List.length_pos.mpr h
  rw [findPeriod, getPeriods_ne_nil h]
  rw [List.find?_cons]
  by_cases h1 : i = s.length
  · rw [if_pos h1]
    rw [show (decide ((currentP s).index = i)) = true by simp [currentP]; omega]
  · rw [if_neg h1]
    rw [show (decide ((currentP s).index = i)) = false by simp [currentP]; omega]
    rw [List.find?_cons]
    by_cases h2 : i = 0
    · rw [if_pos h2]
      rw [show (decide ((firstP s).index = i)) = true by simp [firstP]; omega]
    · rw [if_neg h2]
      rw [show (decide ((firstP s).index = i)) = false by simp [firstP]; omega]
      rw [List.find?_map]
      have hcomp : ((fun p => decide (p.index = i)) ∘ histPeriod s) =
          (fun j => decide (j + 1 = i)) := by
        funext j
        simp [histPeriod]
      rw [hcomp, range_find?_succ_eq]
      by_cases h3 : i < s.length
      · rw [if_pos (by omega), if_pos h3]
        rfl
      · rw [if_neg (by omega), if_neg h3]
        rfl

lemma countP_isCurrent_hist (s : List Snapshot) :
    (((List.range (s.length - 1)).map (histPeriod s)).countP
      (fun p => p.isCurrent)) = 0 := by
  apply List.countP_eq_zero.mpr
  intro p hp
  obtain ⟨j, _, rfl⟩ := List.mem_map.mp hp
  simp [histPeriod]

/-- C1: for every snapshot list of length `N ≥ 0`, `getPeriods` returns
exactly `N + 1` periods; exactly one has `isCurrent = true`, and it has
index `N` and `endAt = null`; consecutive periods (by index) share their
`endAt`/`startAt` boundary, the shared boundary of a historical period
being non-null; with zero snapshots the single period is
`{index: 0, startSnapshotId: null, startAt: null, endAt: null,
isCurrent: true}`. -/
theorem getPeriods_partition (s : List Snapshot) :
    (getPeriods s).length = s.length + 1 ∧
    ((getPeriods s).countP (fun p => p.isCurrent)) = 1 ∧
    (∀ p ∈ getPeriods s, p.isCurrent = true → p.index = s.length ∧ p.endAt = none) ∧
    (∀ i, i < s.length →
      ∃ p q, findPeriod s i = some p ∧ findPeriod s (i + 1) = some q ∧
        p.endAt = q.startAt ∧ p.endAt ≠ none) ∧
    (s = [] → getPeriods s = [⟨0, none, none, none, true⟩]) := by
  by_cases hs : s = []
  · subst hs
    refine ⟨rfl, rfl, ?_, ?_, fun _ => rfl⟩
    · intro p hp _
      rw [getPeriods_nil] at hp
      simp at hp
      subst hp
      exact ⟨rfl, rfl⟩
    · intro i hi
      simp at hi
  · have hlen : 1 ≤ s.length := List.length_pos.mpr hs
    refine ⟨?_, ?_, ?_, ?_, fun he => absurd he hs⟩
    · rw [getPeriods_ne_nil hs]
      simp only [List.length_cons, List.length_map, List.length_range]
      omega
    · rw [getPeriods_ne_nil hs]
      rw [List.countP_cons, List.countP_cons, countP_isCurrent_hist]
      simp [currentP, firstP]
    · intro p hp hcur
      rw [getPeriods_ne_nil hs] at hp
      rcases List.mem_cons.mp hp with rfl | hp
      · exact ⟨rfl, rfl⟩
      rcases List.mem_cons.mp hp with rfl | hp
      · simp [firstP] at hcur
      · obtain ⟨j, _, rfl⟩ := List.mem_map.mp hp
        simp [histPeriod] at hcur
    · intro i hi
      by_cases h0 : i = 0
      · subst h0
        by_cases h1 : 1 = s.length
        · refine ⟨firstP s, currentP s, ?_, ?_, ?_, ?_⟩
          · rw [findPeriod_ne_nil hs, if_neg (by omega), if_pos rfl]
          · rw [findPeriod_ne_nil hs, if_pos h1]
          · show some ((s.getD 0 default).created_at) =
              some ((s.getD (s.length - 1) default).created_at)
            rw [show s.length - 1 = 0 by omega]
          · exact Option.some_ne_none _
        · refine ⟨firstP s, histPeriod s 0, ?_, ?_, rfl, ?_⟩
          · rw [findPeriod_ne_nil hs, if_neg (by omega), if_pos rfl]
          · rw [findPeriod_ne_nil hs, if_neg (by omega), if_neg (by omega),
              if_pos (by omega)]
          · exact Option.some_ne_none _
      · have h1 : 1 ≤ i := by omega
        by_cases h2 : i + 1 = s.length
        · refine ⟨histPeriod s (i - 1), currentP s, ?_, ?_, ?_, ?_⟩
          · rw [findPeriod_ne_nil hs, if_neg (by omega), if_neg h0, if_pos hi]
          · rw [findPeriod_ne_nil hs, if_pos h2]
          · show some ((s.getD (i - 1 + 1) default).created_at) =
              some ((s.getD (s.length - 1) default).created_at)
            rw [show i - 1 + 1 = i by omega, show s.length - 1 = i by omega]
          · exact Option.some_ne_none _
        · refine ⟨histPeriod s (i - 1), histPeriod s (i + 1 - 1), ?_, ?_, ?_, ?_⟩
          · rw [findPeriod_ne_nil hs, if_neg (by omega), if_neg h0, if_pos hi]
          · rw [findPeriod_ne_nil hs, if_neg (by omega), if_neg (by omega),
              if_pos (by omega)]
          · show some ((s.getD (i - 1 + 1) default).created_at) =
              some ((s.getD (i + 1 - 1) default).created_at)
            rw [show i - 1 + 1 = i by omega, show i + 1 - 1 = i by omega]
          · exact Option.some_ne_none _

/-- A sample snapshot (empty payload, used only for period structure). -/
def snapA : Snapshot := ⟨1, "2024-01-01T00:00:00Z", []⟩

/-- A second sample snapshot. -/
def snapB : Snapshot := ⟨2, "2024-02-01T00:00:00Z", []⟩

/-- Witness for C1 at the concrete snapshot list `[snapA, snapB]`. -/
theorem getPeriods_partition_witness :
    ∃ p q, findPeriod [snapA, snapB] 0 = some p ∧
      findPeriod [snapA, snapB] 1 = some q ∧
      p.endAt = q.startAt ∧ p.endAt ≠ none := by
  have h := getPeriods_partition [snapA, snapB]
  exact h.2.2.2.1 0 (by decide)

lemma withShare_fields (t : ℚ) (u : UserRanking) :
    (withShare t u).cost = u.cost ∧
    (withShare t u).periodTokens = u.periodTokens ∧
    (withShare t u).periodRequests = u.periodRequests ∧
    (withShare t u).rawStart = u.rawStart ∧
    (withShare t u).rawEnd = u.rawEnd ∧
    (withShare t u).id = u.id ∧
    (withShare t u).isMe = u.isMe ∧
    (withShare t u).share = if 0 < t then u.cost / t else 0 :=
  ⟨rfl, rfl, rfl, rfl, rfl, rfl, rfl, rfl⟩

lemma mkEntry_fields (start : List (String × UserData)) (m : Option String)
    (id : String) (endU : UserData) :
    (mkEntry start m id endU).rawEnd = some endU ∧
    (mkEntry start m id endU).rawStart = mapGet start id ∧
    (mkEntry start m id endU).periodTokens =
      clampDelta (JSNum.sub (numField (some endU) (fun t => t.tokens))
        (numField (mapGet start id) (fun t => t.tokens))) ∧
    (mkEntry start m id endU).periodRequests =
      clampDelta (JSNum.sub (numField (some endU) (fun t => t.requests))
        (numField (mapGet start id) (fun t => t.requests))) ∧
    (mkEntry start m id endU).id = (if m = some id then id else "") ∧
    (mkEntry start m id endU).isMe = decide (m = some id) :=
  ⟨rfl, rfl, rfl, rfl, rfl, rfl⟩

/-- C3: `computePeriodDelta` is total and clamps every delta: each ranking
entry has non-negative `cost`, `periodTokens` and `periodRequests`, while
the raw records carried in `rawStart`/`rawEnd` are the unmodified input
records (the clamp applies to the delta, never to raw fields). -/
theorem computePeriodDelta_clamped (s e : List UserData) (m : Option String) :
    ∀ u ∈ (computePeriodDelta s e m).users,
      0 ≤ u.cost ∧ 0 ≤ u.periodTokens ∧ 0 ≤ u.periodRequests ∧
      (∃ endU, u.rawEnd = some endU ∧ endU ∈ e) ∧
      (∀ startU, u.rawStart = some startU → startU ∈ s) := by
  intro u hu
  obtain ⟨u0, h0, rfl⟩ := mem_users_iff.mp hu
  obtain ⟨id, endU, hget, rfl⟩ := mem_rawUsers.mp h0
  obtain ⟨hc, -, -, -, -, -, -, -⟩ := withShare_fields (totalRaw s e m)
    (mkEntry (mapFromDataArray s) m id endU)
  refine ⟨?_, ?_, ?_, ?_, ?_⟩
  · rw [hc, mkEntry_cost]
    exact round6_nonneg (clampDelta_nonneg _)
  · exact clampDelta_nonneg _
  · exact clampDelta_nonneg _
  · exact ⟨endU, rfl, (mapGet_mapFromDataArray_some hget).2⟩
  · intro startU hsu
    have hsu2 : mapGet (mapFromDataArray s) id = some startU := hsu
    exact (mapGet_mapFromDataArray_some hsu2).2

/-- Cumulative totals used in concrete witnesses. -/
def totOf (c tk rq : ℚ) : UsageTotal := ⟨some (.fin c), some (.fin tk), some (.fin rq)⟩

/-- "u1" with cumulative cost 50 (start side of the counter-reset example). -/
def uStart50 : UserData := ⟨"u1", "Alice", some (totOf 50 0 0)⟩

/-- "u1" with cumulative cost 40 (end side of the counter-reset example). -/
def uEnd40 : UserData := ⟨"u1", "Alice", some (totOf 40 0 0)⟩

/-- Witness for C3: the counter-reset example `start cost 50, end cost 40`
yields a clamped delta `0`, not `-10`. -/
theorem computePeriodDelta_clamped_witness :
    ∃ u ∈ (computePeriodDelta [uStart50] [uEnd40] none).users,
      0 ≤ u.cost ∧ 0 ≤ u.periodTokens ∧ 0 ≤ u.periodRequests ∧ u.cost = 0 := by
  have hget : mapGet (mapFromDataArray [uEnd40]) "u1" = some uEnd40 := rfl
  have h0 : mkEntry (mapFromDataArray [uStart50]) none "u1" uEnd40 ∈
      rawUsers [uStart50] [uEnd40] none :=
    mem_rawUsers.mpr ⟨"u1", uEnd40, hget, rfl⟩
  have hmem : withShare (totalRaw [uStart50] [uEnd40] none)
      (mkEntry (mapFromDataArray [uStart50]) none "u1" uEnd40) ∈
      (computePeriodDelta [uStart50] [uEnd40] none).users :=
    mem_users_iff.mpr ⟨_, h0, rfl⟩
  have hth := computePeriodDelta_clamped [uStart50] [uEnd40] none _ hmem
  refine ⟨_, hmem, hth.1, hth.2.1, hth.2.2.1, ?_⟩
  have hsub : JSNum.sub (numField (some uEnd40) (fun t => t.cost))
      (numField (mapGet (mapFromDataArray [uStart50]) "u1") (fun t => t.cost)) =
      .fin (-10) := by
    rw [show numField (some uEnd40) (fun t => t.cost) = .fin 40 from rfl]
    rw [show numField (mapGet (mapFromDataArray [uStart50]) "u1") (fun t => t.cost) =
      .fin 50 from rfl]
    rw [JSNum.sub]
    norm_num
  rw [(withShare_fields _ _).1, mkEntry_cost, hsub]
  rw [show clampDelta (.fin (-10)) = 0 by rw [clampDelta]; norm_num]
  rw [round6, ratFloor_eq_intFloor]
  norm_num

lemma list_sum_div (l : List ℚ) (c : ℚ) :
    (l.map (fun x => x / c)).sum = l.sum / c := by
  induction l with
  | nil => simp
  | cons a t ih => simp [ih, add_div]

/-- C4: each ranked user's share is `cost / totalCost` when
`totalCost > 0` and `0` otherwise; shares sum to exactly 1 when
`totalCost > 0`, and are all `0` when `totalCost = 0`. -/
theorem computePeriodDelta_shares (s e : List UserData) (m : Option String) :
    (∀ u ∈ (computePeriodDelta s e m).users,
       u.share = if 0 < (computePeriodDelta s e m).totalCost
         then u.cost / (computePeriodDelta s e m).totalCost else 0) ∧
    (0 < (computePeriodDelta s e m).totalCost →
       ((computePeriodDelta s e m).users.map (fun u => u.share)).sum = 1) ∧
    ((computePeriodDelta s e m).totalCost = 0 →
       ∀ u ∈ (computePeriodDelta s e m).users, u.share = 0) := by
  have htot := totalCost_eq_totalRaw s e m
  refine ⟨?_, ?_, ?_⟩
  · intro u hu
    obtain ⟨u0, h0, rfl⟩ := mem_users_iff.mp hu
    rw [htot, (withShare_fields _ _).2.2.2.2.2.2.2, (withShare_fields _ _).1]
  · intro hpos
    rw [htot] at hpos
    have hperm : ((computePeriodDelta s e m).users.map (fun u => u.share)).Perm
        (((rawUsers s e m).map (withShare (totalRaw s e m))).map (fun u => u.share)) := by
      rw [computePeriodDelta_users]
      exact (List.perm_insertionSort costDesc _).map _
    rw [hperm.sum_eq, List.map_map]
    have hshift : ((fun u : UserRanking => u.share) ∘ withShare (totalRaw s e m)) =
        (fun u : UserRanking => u.cost / totalRaw s e m) := by
      funext u
      rw [Function.comp_apply, (withShare_fields _ _).2.2.2.2.2.2.2, if_pos hpos]
    rw [hshift]
    rw [show ((rawUsers s e m).map (fun u => u.cost / totalRaw s e m)) =
      (((rawUsers s e m).map (fun u => u.cost)).map (fun x => x / totalRaw s e m)) by
      rw [List.map_map]; rfl]
    rw [list_sum_div]
    exact div_self (ne_of_gt hpos)
  · intro hzero u hu
    rw [htot] at hzero
    obtain ⟨u0, h0, rfl⟩ := mem_users_iff.mp hu
    rw [(withShare_fields _ _).2.2.2.2.2.2.2, hzero]
    simp

/-- Witness for C4 with one positive-cost user: total is positive and the
single share sums to 1. -/
theorem computePeriodDelta_shares_witness :
    0 < (computePeriodDelta [] [uEnd40] none).totalCost ∧
    ((computePeriodDelta [] [uEnd40] none).users.map (fun u => u.share)).sum = 1 := by
  have hpos : 0 < (computePeriodDelta [] [uEnd40] none).totalCost := by
    rw [totalCost_eq_totalRaw, totalRaw]
    rw [show rawUsers [] [uEnd40] none =
      [mkEntry (mapFromDataArray []) none "u1" uEnd40] from rfl]
    rw [List.map_cons, List.map_nil, List.sum_cons, List.sum_nil, mkEntry_cost]
    rw [show numField (some uEnd40) (fun t => t.cost) = .fin 40 from rfl]
    rw [show numField (mapGet (mapFromDataArray []) "u1") (fun t => t.cost) =
      .fin 0 from rfl]
    rw [JSNum.sub, show (40 : ℚ) - 0 = 40 by norm_num]
    rw [show clampDelta (.fin 40) = 40 by rw [clampDelta]; norm_num]
    rw [round6, ratFloor_eq_intFloor]
    norm_num
  exact ⟨hpos, (computePeriodDelta_shares [] [uEnd40] none).2.1 hpos⟩

/-- C5: the ranking is sorted in non-increasing order of `cost`. -/
theorem computePeriodDelta_sorted (s e : List UserData) (m : Option String) :
    (computePeriodDelta s e m).users.Pairwise (fun a b => b.cost ≤ a.cost) := by
  rw [computePeriodDelta_users]
  exact List.sorted_insertionSort costDesc _


/-- An id is represented in the ranking (via the raw end record it
carries) exactly when it occurs in `endData`. -/
lemma rankingIds_iff (s e : List UserData) (m : Option String) (x : String) :
    (∃ u ∈ (computePeriodDelta s e m).users,
       ∃ endU, u.rawEnd = some endU ∧ endU.id = x) ↔
      x ∈ e.map (fun u => u.id) := by
  constructor
  · rintro ⟨u, hu, endU, hraw, rfl⟩
    obtain ⟨u0, h0, rfl⟩ := mem_users_iff.mp hu
    obtain ⟨id, endU0, hget, rfl⟩ := mem_rawUsers.mp h0
    have hre : (withShare (totalRaw s e m)
        (mkEntry (mapFromDataArray s) m id endU0)).rawEnd = some endU0 := rfl
    rw [hre] at hraw
    have heq : endU0 = endU := Option.some_injective _ hraw
    subst heq
    obtain ⟨-, hmem⟩ := mapGet_mapFromDataArray_some hget
    exact List.mem_map.mpr ⟨endU0, hmem, rfl⟩
  · intro hx
    have hkey : x ∈ mapKeys (mapFromDataArray e) := mapFromDataArray_keys.mpr hx
    have hsome : (mapGet (mapFromDataArray e) x).isSome := mapGet_isSome_iff.mpr hkey
    obtain ⟨endU, hget⟩ := Option.isSome_iff_exists.mp hsome
    have hid : endU.id = x := (mapGet_mapFromDataArray_some hget).1
    exact ⟨withShare (totalRaw s e m) (mkEntry (mapFromDataArray s) m x endU),
      mem_users_iff.mpr ⟨_, mem_rawUsers.mpr ⟨x, endU, hget, rfl⟩, rfl⟩,
      endU, rfl, hid⟩

/-- C2 (amended): the user-id set of the ranking equals the id set of
`endRecords`; start-only ids are excluded; an end-only user's start values
default to 0, so its cost is `end.cost` rounded to six decimals
(`toFixed(6)`), which differs from `end.cost` when `end.cost` is not a
multiple of `10⁻⁶`. -/
theorem computePeriodDelta_ids (s e : List UserData) (m : Option String) :
    (∀ x, (∃ u ∈ (computePeriodDelta s e m).users,
            ∃ endU, u.rawEnd = some endU ∧ endU.id = x) ↔
          x ∈ e.map (fun u => u.id)) ∧
    (∀ x, x ∈ s.map (fun u => u.id) → x ∉ e.map (fun u => u.id) →
       ¬ ∃ u ∈ (computePeriodDelta s e m).users,
           ∃ endU, u.rawEnd = some endU ∧ endU.id = x) ∧
    (∀ u ∈ (computePeriodDelta s e m).users, ∀ endU, ∀ c : ℚ,
       u.rawEnd = some endU → u.rawStart = none →
       numField (some endU) (fun t => t.cost) = .fin c → 0 ≤ c →
       u.cost = round6 c) := by
  refine ⟨rankingIds_iff s e m, ?_, ?_⟩
  · intro x _ hxe hex
    exact hxe ((rankingIds_iff s e m x).mp hex)
  · intro u hu endU c hraw hrawS hcost hc
    obtain ⟨u0, h0, rfl⟩ := mem_users_iff.mp hu
    obtain ⟨id, endU0, hget, rfl⟩ := mem_rawUsers.mp h0
    have hre : (withShare (totalRaw s e m)
        (mkEntry (mapFromDataArray s) m id endU0)).rawEnd = some endU0 := rfl
    rw [hre] at hraw
    have heq : endU0 = endU := Option.some_injective _ hraw
    subst heq
    have hrs : mapGet (mapFromDataArray s) id = none := hrawS
    rw [(withShare_fields _ _).1, mkEntry_cost, hrs, hcost]
    rw [show numField none (fun t => t.cost) = .fin 0 from rfl]
    rw [JSNum.sub, sub_zero]
    rw [clampDelta, if_neg (not_lt.mpr hc)]

/-- A user whose cumulative cost is not a multiple of `10⁻⁶`. -/
def uTiny : UserData := ⟨"u1", "Tina", some (totOf (1/10000000) 0 0)⟩

/-- Counterexample to C2 as stated: `"u1"` is present only in `endData`
with finite cost `10⁻⁷ ≥ 0`, yet its ranking entry's `cost` is `0`, not
`end.cost` — `toFixed(6)` rounds the defaulted delta. -/
theorem computePeriodDelta_ids_counterexample :
    ∃ u ∈ (computePeriodDelta [] [uTiny] none).users,
      u.rawStart = none ∧ u.rawEnd = some uTiny ∧
      numField (some uTiny) (fun t => t.cost) = .fin (1/10000000) ∧
      (0:ℚ) ≤ 1/10000000 ∧ u.cost = 0 ∧ u.cost ≠ 1/10000000 := by
  have hget : mapGet (mapFromDataArray [uTiny]) "u1" = some uTiny := rfl
  have hmem : withShare (totalRaw [] [uTiny] none)
      (mkEntry (mapFromDataArray []) none "u1" uTiny) ∈
      (computePeriodDelta [] [uTiny] none).users :=
    mem_users_iff.mpr ⟨_, mem_rawUsers.mpr ⟨"u1", uTiny, hget, rfl⟩, rfl⟩
  have hcost : (withShare (totalRaw [] [uTiny] none)
      (mkEntry (mapFromDataArray []) none "u1" uTiny)).cost = 0 := by
    rw [(withShare_fields _ _).1, mkEntry_cost]
    rw [show numField (some uTiny) (fun t => t.cost) = .fin (1/10000000) from rfl]
    rw [show numField (mapGet (mapFromDataArray []) "u1") (fun t => t.cost) =
      .fin 0 from rfl]
    rw [JSNum.sub, sub_zero]
    rw [show clampDelta (.fin (1/10000000)) = 1/10000000 by
      rw [clampDelta]; norm_num]
    rw [round6, ratFloor_eq_intFloor]
    norm_num
  refine ⟨_, hmem, rfl, rfl, rfl, by norm_num, hcost, ?_⟩
  rw [hcost]
  norm_num

/-- Witness for C2 (amended) at a concrete end-only user: the theorem
applied to `start = [], end = [uEnd40]` gives `cost = round6 40`. -/
theorem computePeriodDelta_ids_witness :
    ∃ u ∈ (computePeriodDelta [] [uEnd40] none).users,
      u.cost = round6 40 ∧ "u1" ∈ [uEnd40].map (fun u => u.id) := by
  have hget : mapGet (mapFromDataArray [uEnd40]) "u1" = some uEnd40 := rfl
  have hmem : withShare (totalRaw [] [uEnd40] none)
      (mkEntry (mapFromDataArray []) none "u1" uEnd40) ∈
      (computePeriodDelta [] [uEnd40] none).users :=
    mem_users_iff.mpr ⟨_, mem_rawUsers.mpr ⟨"u1", uEnd40, hget, rfl⟩, rfl⟩
  have hc := (computePeriodDelta_ids [] [uEnd40] none).2.2 _ hmem uEnd40 40
    rfl rfl rfl (by norm_num)
  exact ⟨_, hmem, hc, by simp [uEnd40]⟩

/-- C6 (amended): the `id` field of each entry is redacted to the empty
string unless the entry's user id equals `selfId`, and `isMe` is true
exactly on the self entry; however each entry's `rawEnd` (and `rawStart`)
still carries the original record, id included, so raw identifiers do
remain recoverable from the ranking payload. -/
theorem computePeriodDelta_redaction (s e : List UserData) (m : Option String) :
    ∀ u ∈ (computePeriodDelta s e m).users,
      ∃ endU, u.rawEnd = some endU ∧ endU ∈ e ∧
        u.id = (if m = some endU.id then endU.id else "") ∧
        (u.isMe = true ↔ m = some endU.id) := by
  intro u hu
  obtain ⟨u0, h0, rfl⟩ := mem_users_iff.mp hu
  obtain ⟨id, endU, hget, rfl⟩ := mem_rawUsers.mp h0
  obtain ⟨hid, hmem⟩ := mapGet_mapFromDataArray_some hget
  subst hid
  refine ⟨endU, rfl, hmem, ?_, ?_⟩
  · rw [show (withShare (totalRaw s e m)
      (mkEntry (mapFromDataArray s) m endU.id endU)).id =
      (if m = some endU.id then endU.id else "") from rfl]
  · rw [show (withShare (totalRaw s e m)
      (mkEntry (mapFromDataArray s) m endU.id endU)).isMe =
      decide (m = some endU.id) from rfl]
    exact decide_eq_true_iff

/-- Counterexample to the leak-freedom part of C6: for a non-self user the
`id` field is redacted and `isMe` is false, yet the entry's `rawEnd`
carries the original record whose `id` is `"u1"` — the raw identifier is
part of the ranking payload. -/
theorem computePeriodDelta_redaction_counterexample :
    ∃ u ∈ (computePeriodDelta [] [uEnd40] (some "me")).users,
      u.id = "" ∧ u.isMe = false ∧ u.rawEnd = some uEnd40 ∧ uEnd40.id = "u1" := by
  have hget : mapGet (mapFromDataArray [uEnd40]) "u1" = some uEnd40 := rfl
  have hmem : withShare (totalRaw [] [uEnd40] (some "me"))
      (mkEntry (mapFromDataArray []) (some "me") "u1" uEnd40) ∈
      (computePeriodDelta [] [uEnd40] (some "me")).users :=
    mem_users_iff.mpr ⟨_, mem_rawUsers.mpr ⟨"u1", uEnd40, hget, rfl⟩, rfl⟩
  refine ⟨_, hmem, ?_, ?_, rfl, rfl⟩
  · rw [show (withShare (totalRaw [] [uEnd40] (some "me"))
      (mkEntry (mapFromDataArray []) (some "me") "u1" uEnd40)).id =
      (if (some "me" : Option String) = some "u1" then "u1" else "") from rfl]
    rw [if_neg (by simp)]
  · rw [show (withShare (totalRaw [] [uEnd40] (some "me"))
      (mkEntry (mapFromDataArray []) (some "me") "u1" uEnd40)).isMe =
      decide ((some "me" : Option String) = some "u1") from rfl]
    simp

/-- Witness for C6 (amended): the redaction/`isMe` characterization applied
at `end = [uEnd40]`, `selfId = "u1"`. -/
theorem computePeriodDelta_redaction_witness :
    ∃ u ∈ (computePeriodDelta [] [uEnd40] (some "u1")).users,
      ∃ endU, u.rawEnd = some endU ∧ endU ∈ [uEnd40] ∧
        u.id = (if (some "u1" : Option String) = some endU.id then endU.id else "") ∧
        (u.isMe = true ↔ (some "u1" : Option String) = some endU.id) := by
  have hget : mapGet (mapFromDataArray [uEnd40]) "u1" = some uEnd40 := rfl
  have hmem : withShare (totalRaw [] [uEnd40] (some "u1"))
      (mkEntry (mapFromDataArray []) (some "u1") "u1" uEnd40) ∈
      (computePeriodDelta [] [uEnd40] (some "u1")).users :=
    mem_users_iff.mpr ⟨_, mem_rawUsers.mpr ⟨"u1", uEnd40, hget, rfl⟩, rfl⟩
  exact ⟨_, hmem, computePeriodDelta_redaction [] [uEnd40] (some "u1") _ hmem⟩

lemma getD_mem_of_lt {l : List Snapshot} {i : ℕ} (h : i < l.length) :
    l.getD i default ∈ l := by
  rw [List.getD_eq_getElem?_getD, List.getElem?_eq_getElem h]
  exact List.getElem_mem h

lemma findPeriod_eq_none_iff (db : List Snapshot) (idx : ℕ) :
    findPeriod db idx = none ↔ db.length < idx := by
  by_cases hdb : db = []
  · subst hdb
    rw [findPeriod_nil]
    split_ifs with h <;> simp <;> omega
  · have hlen : 1 ≤ db.length := List.length_pos.mpr hdb
    rw [findPeriod_ne_nil hdb]
    split_ifs with h1 h2 h3 <;> simp <;> omega

lemma getPeriodSummary_none_iff (db : List Snapshot) (live : List UserData)
    (now : String) (idx : ℕ) (m : Option String) :
    getPeriodSummary db live now idx m = none ↔ findPeriod db idx = none := by
  rw [getPeriodSummary]
  cases h : findPeriod db idx <;> simp

lemma getPeriodSummary_isSome (db : List Snapshot) (live : List UserData)
    (now : String) (idx : ℕ) (m : Option String) {p : PeriodInfo}
    (h : findPeriod db idx = some p) :
    getPeriodSummary db live now idx m =
      some
        { period := { p with endAt := some (materializeEndAt p.endAt now) }
          totals :=
            { totalCost := (computePeriodDelta (resolvePeriodData db live p).1
                (resolvePeriodData db live p).2 m).totalCost
              userCount := ((computePeriodDelta (resolvePeriodData db live p).1
                (resolvePeriodData db live p).2 m).users.filter
                  (fun u => decide (0 < u.cost))).length }
          ranking := (computePeriodDelta (resolvePeriodData db live p).1
            (resolvePeriodData db live p).2 m).users } := by
  rw [getPeriodSummary, h]

/-- C7 (amended): `getPeriodSummary` fails with `NotFound` exactly when the
period index exceeds the snapshot count `N` (indices `0..N` always
resolve), and `getUserDetail` fails with `NotFound` exactly when no entry
of the resolved period's ranking has its (redacted) `id` field equal to
`selfId` — for a non-empty `selfId` that means `selfId` is absent from
`endData`, but for `selfId = ""` the redacted entries themselves match, so
the lookup succeeds whenever the ranking is non-empty. -/
theorem notFound_characterization (db : List Snapshot) (live : List UserData)
    (now : String) (idx : ℕ) (meId : String) :
    (getPeriodSummary db live now idx (some meId) = none ↔ db.length < idx) ∧
    (∀ summary, getPeriodSummary db live now idx (some meId) = some summary →
       (getUserDetail db live now idx meId = none ↔
         ∀ u ∈ summary.ranking, u.id ≠ meId)) := by
  constructor
  · rw [getPeriodSummary_none_iff, findPeriod_eq_none_iff]
  · intro summary hsum
    simp only [getUserDetail, hsum]
    cases hfind : summary.ranking.find? (fun u => decide (u.id = meId)) with
    | none =>
      simp only [hfind]
      constructor
      · intro _ u hu
        simpa using List.find?_eq_none.mp hfind u hu
      · intro _
        trivial
    | some me =>
      simp only [hfind]
      constructor
      · intro h
        simp at h
      · intro hall
        have hmem := List.mem_of_find?_eq_some hfind
        have hpred := List.find?_some hfind
        have hid : me.id = meId := by simpa using hpred
        exact absurd hid (hall me hmem)

/-- Counterexample to C7 as stated: with `selfId = ""` and a non-empty
`endData` not containing a user with id `""`, `getUserDetail` succeeds —
the redacted `id` of another user's entry matches the empty string. -/
theorem notFound_counterexample :
    (getUserDetail [] [uEnd40] "t" 0 "").isSome = true ∧
    (∀ u ∈ [uEnd40], u.id ≠ "") := by
  constructor
  · rfl
  · intro u hu
    rw [List.mem_singleton] at hu
    subst hu
    rw [show uEnd40.id = "u1" from rfl]
    simp

/-- Witness for C7 (amended): index 5 with an empty store is `NotFound`,
and for the resolvable period 0 the `getUserDetail` failure condition is
exactly "no ranking entry's id equals the requested selfId". -/
theorem notFound_witness :
    getPeriodSummary [] [uEnd40] "t" 5 (some "u1") = none ∧
    ∃ s, getPeriodSummary [] [uEnd40] "t" 0 (some "zz") = some s ∧
      (getUserDetail [] [uEnd40] "t" 0 "zz" = none ↔
        ∀ u ∈ s.ranking, u.id ≠ "zz") := by
  refine ⟨(notFound_characterization [] [uEnd40] "t" 5 "u1").1.mpr (by decide), ?_⟩
  exact ⟨_, rfl, (notFound_characterization [] [uEnd40] "t" 0 "zz").2 _ rfl⟩

/-- C8: in every period summary, `totals.userCount` counts exactly the
ranking entries with cost strictly greater than 0; zero-cost entries stay
in the ranking (the count never exceeds, and may be smaller than, the
ranking length). -/
theorem userCount_spec (db : List Snapshot) (live : List UserData)
    (now : String) (idx : ℕ) (meId : Option String) :
    ∀ summary, getPeriodSummary db live now idx meId = some summary →
      summary.totals.userCount =
        (summary.ranking.filter (fun u => decide (0 < u.cost))).length ∧
      summary.totals.userCount ≤ summary.ranking.length := by
  intro summary hsum
  cases hfp : findPeriod db idx with
  | none =>
    have hnone := (getPeriodSummary_none_iff db live now idx meId).mpr hfp
    rw [hnone] at hsum
    exact absurd hsum (by simp)
  | some p =>
    rw [getPeriodSummary_isSome db live now idx meId hfp] at hsum
    obtain rfl := Option.some_injective _ hsum.symm
    exact ⟨rfl, List.length_filter_le _ _⟩

/-- A zero-delta user (same cumulative cost on both sides). -/
def uFlat : UserData := ⟨"u2", "Flat", some (totOf 7 0 0)⟩

/-- Witness for C8 at a concrete summary. -/
theorem userCount_spec_witness :
    ∃ summary, getPeriodSummary [] [uFlat, uEnd40] "t" 0 none = some summary ∧
      summary.totals.userCount =
        (summary.ranking.filter (fun u => decide (0 < u.cost))).length ∧
      summary.totals.userCount ≤ summary.ranking.length :=
  ⟨_, rfl, userCount_spec [] [uFlat, uEnd40] "t" 0 none _ rfl⟩

lemma materializeEndAt_ne {ea : String} (now : String) (hne : ea ≠ "") :
    materializeEndAt (some ea) now = ea := by
  rw [materializeEndAt]
  rw [if_neg hne]

lemma resolvePeriodData_firstP (db : List Snapshot) (live : List UserData)
    (hne : (db.getD 0 default).created_at ≠ "") :
    resolvePeriodData db live (firstP db) = ([], endDataOf db (firstP db)) := by
  simp only [resolvePeriodData, firstP]
  rw [if_pos trivial, if_neg hne]

lemma resolvePeriodData_hist (db : List Snapshot) (live : List UserData)
    (j : ℕ) :
    resolvePeriodData db live (histPeriod db j) =
      (startDataOf db (histPeriod db j), endDataOf db (histPeriod db j)) := by
  simp only [resolvePeriodData, histPeriod]
  rw [if_neg (by simp), if_neg (by simp)]

/-- C9: `getPeriodSummary` for a non-current period is a pure function of
the snapshot store alone — with the same store state it returns the same
result regardless of the live usage dataset and of the current wall-clock
timestamp (hence two immediately successive calls agree), and being a pure
function of its inputs it mutates nothing.  The hypothesis that stored
timestamps are non-empty strings is an invariant of the store, whose
`append` stamps `new Date().toISOString()`. -/
theorem getPeriodSummary_deterministic (db : List Snapshot)
    (live1 live2 : List UserData) (now1 now2 : String) (idx : ℕ)
    (meId : Option String) (p : PeriodInfo)
    (hts : ∀ s ∈ db, s.created_at ≠ "")
    (hfp : findPeriod db idx = some p) (hcur : p.isCurrent = false) :
    getPeriodSummary db live1 now1 idx meId =
      getPeriodSummary db live2 now2 idx meId := by
  rw [getPeriodSummary_isSome db live1 now1 idx meId hfp,
      getPeriodSummary_isSome db live2 now2 idx meId hfp]
  by_cases hdb : db = []
  · subst hdb
    rw [findPeriod_nil] at hfp
    by_cases h0 : idx = 0
    · rw [if_pos h0] at hfp
      have hp := Option.some_injective _ hfp
      rw [← hp] at hcur
      simp at hcur
    · rw [if_neg h0] at hfp
      exact absurd hfp (by simp)
  · have hlen : 1 ≤ db.length := List.length_pos.mpr hdb
    rw [findPeriod_ne_nil hdb] at hfp
    split_ifs at hfp with h1 h2 h3
    · have hp := Option.some_injective _ hfp
      rw [← hp] at hcur
      simp [currentP] at hcur
    · have hp := Option.some_injective _ hfp
      subst hp
      have hne : (db.getD 0 default).created_at ≠ "" :=
        hts _ (getD_mem_of_lt (by omega))
      rw [resolvePeriodData_firstP db live1 hne,
          resolvePeriodData_firstP db live2 hne]
      rw [show (firstP db).endAt = some ((db.getD 0 default).created_at) from rfl]
      rw [materializeEndAt_ne now1 hne, materializeEndAt_ne now2 hne]
    · have hp := Option.some_injective _ hfp
      subst hp
      have hne : (db.getD (idx - 1 + 1) default).created_at ≠ "" :=
        hts _ (getD_mem_of_lt (by omega))
      rw [resolvePeriodData_hist db live1 (idx - 1),
          resolvePeriodData_hist db live2 (idx - 1)]
      rw [show (histPeriod db (idx - 1)).endAt =
        some ((db.getD (idx - 1 + 1) default).created_at) from rfl]
      rw [materializeEndAt_ne now1 hne, materializeEndAt_ne now2 hne]

/-- Witness for C9: the historical period 1 of a two-snapshot store gives
identical summaries for different live datasets and different clock
readings. -/
theorem getPeriodSummary_deterministic_witness :
    getPeriodSummary [snapA, snapB] [uEnd40] "t1" 1 (some "u1") =
      getPeriodSummary [snapA, snapB] [] "t2" 1 (some "u1") :=
  getPeriodSummary_deterministic [snapA, snapB] [uEnd40] [] "t1" "t2" 1
    (some "u1") (histPeriod [snapA, snapB] 0)
    (by decide) rfl rfl

/-- C10: when a boundary snapshot cannot be located during data resolution
(`getSnapshotById` finds nothing for the period's start snapshot id, or no
stored snapshot's `created_at` equals the period's `endAt`), the
corresponding dataset silently stays empty and no error is raised: a found
period always yields a summary, an empty `endData` yields an empty
ranking, and an empty `startData` makes every ranked user appear new
(`rawStart = null`). -/
theorem resolution_silent_empty (db : List Snapshot) (live : List UserData)
    (now : String) (meId : Option String) (p : PeriodInfo) :
    ((∀ sid, p.startSnapshotId = some sid → getSnapshotById db sid = none) →
       (resolvePeriodData db live p).1 = []) ∧
    (∀ ea, p.endAt = some ea → ea ≠ "" →
       db.find? (fun s => decide (s.created_at = ea)) = none →
       p.isCurrent = false → (resolvePeriodData db live p).2 = []) ∧
    (∀ idx, (findPeriod db idx).isSome = true →
       (getPeriodSummary db live now idx meId).isSome = true) ∧
    (∀ sd m2, (computePeriodDelta sd [] m2).users = []) ∧
    (∀ ed m2, ∀ u ∈ (computePeriodDelta [] ed m2).users, u.rawStart = none) := by
  refine ⟨?_, ?_, ?_, ?_, ?_⟩
  · intro hstart
    have hsd : startDataOf db p = [] := by
      cases hsid : p.startSnapshotId with
      | none => simp only [startDataOf, hsid]
      | some sid => simp only [startDataOf, hsid, hstart sid hsid]
    rw [resolvePeriodData]
    split_ifs with h0 hc
    · cases hea : p.endAt with
      | none => simp only [hea]
      | some ea =>
        simp only [hea]
        split <;> rfl
    · rw [hsd]
    · rw [hsd]
  · intro ea hea hne hfind hcur
    have hed : endDataOf db p = [] := by
      simp only [endDataOf, hea, hfind]
    rw [resolvePeriodData]
    split_ifs with h0 hc
    · simp only [hea]
      rw [if_neg hne]
      exact hed
    · rw [hcur] at hc
      exact absurd hc (by simp)
    · rw [hed]
  · intro idx hsome
    cases hfp : findPeriod db idx with
    | none => rw [hfp] at hsome; simp at hsome
    | some q => rw [getPeriodSummary_isSome db live now idx meId hfp]; rfl
  · intro sd m2
    have hraw : rawUsers sd [] m2 = [] := by
      rw [rawUsers]
      exact List.filterMap_eq_nil_iff.mpr (fun a _ => rfl)
    rw [computePeriodDelta_users, hraw]
    rfl
  · intro ed m2 u hu
    obtain ⟨u0, h0, rfl⟩ := mem_users_iff.mp hu
    obtain ⟨id, endU, hget, rfl⟩ := mem_rawUsers.mp h0
    rw [(withShare_fields _ _).2.2.2.1,
        (mkEntry_fields (mapFromDataArray []) m2 id endU).2.1]
    rfl

/-- A period whose boundary snapshots are no longer present in the store
(periods are not stable identities across snapshot-store changes). -/
def pGhost : PeriodInfo := ⟨3, some 99, some "snap3", some "snap4", false⟩

/-- Witness for C10: against a two-snapshot store, resolving `pGhost`
leaves both datasets empty, and a resolvable index still yields a
summary. -/
theorem resolution_silent_empty_witness :
    (resolvePeriodData [snapA, snapB] [uEnd40] pGhost).1 = [] ∧
    (resolvePeriodData [snapA, snapB] [uEnd40] pGhost).2 = [] ∧
    (getPeriodSummary [snapA, snapB] [uEnd40] "t" 0 none).isSome = true := by
  have h := resolution_silent_empty [snapA, snapB] [uEnd40] "t" none pGhost
  refine ⟨h.1 ?_, h.2.1 "snap4" rfl (by decide) (by decide) rfl, h.2.2.1 0 rfl⟩
  intro sid hsid
  have : sid = 99 := by
    have := Option.some_injective _ hsid.symm
    omega
  subst this
  decide
